import Mathlib

/-!
Verification of the `simpledb` key-value storage engine (Rust sources:
`src/bytes.rs`, `src/log.rs`, `src/db.rs`, `src/error.rs`).

Shallow embedding conventions:
* byte strings are `List Nat` (each byte a natural number; the encoder writes
  `n % 256` digits, so all produced bytes are below 256);
* the store directory is a `Disk` structure holding the two version-marker
  files and the per-version `checkpoint.<n>` / `logfile.<n>` contents;
* fallible filesystem steps take explicit boolean outcome parameters
  (`appendOk`, the `CommitFlags` oracle) standing for the success or failure
  of the corresponding syscall;
* Rust panics (`expect`, `panic!`) are modelled as explicit `panicked`
  outcome constructors, distinct from returned error values;
* the WAL replay loop and the checkpoint read loop are written with a fuel
  parameter set to `stream length + 1`; each loop iteration consumes at
  least nine bytes of the stream, so the fuel bound is never reached and the
  definitions compute by kernel reduction.
-/

/-- Byte strings: the model of Rust `Vec<u8>`. -/
abbrev Bytes := List Nat

/-- The in-memory record set: the model of `HashMap<Vec<u8>, Vec<u8>>`
(`SimpleCollection` in `db.rs`), as an association list with unique keys.
`HashMap` iteration order is arbitrary, so the list order is never
observable except through lookups and serialization, and all record-set
comparisons in the theorems below are lookup-based. -/
abbrev RecList := List (Bytes × Bytes)

/-- Big-endian base-256 digits of `n`, `k` bytes wide: the model of
`(n as u64).to_be_bytes()` in `bytes.rs` (`encode_be_u64`), with the
truncation to 64 bits expressed by `% 256` per digit. -/
def beBytesAux : Nat → Nat → List Nat
  | 0, _ => []
  | k + 1, n => beBytesAux k (n / 256) ++ [n % 256]

/-- `U64_BYTES_LEN = 8` byte big-endian encoding of a length
(`bytes.rs::encode_be_u64`). -/
def u64be (n : Nat) : List Nat := beBytesAux 8 n

/-- Decoding of big-endian bytes: the model of `u64::from_be_bytes`. -/
def fromBeBytes (l : List Nat) : Nat := l.foldl (fun acc b => acc * 256 + b) 0

/-- `bytes.rs::write_encoded_bytes_to_buffer`: 8-byte big-endian length
prefix followed by the raw bytes. -/
def lenPrefixed (b : Bytes) : Bytes := u64be b.length ++ b

/-- `bytes.rs::write_encoded_char_to_buffer`: a fixed length prefix of 1
followed by the single tag byte. -/
def encodeChar (c : Nat) : Bytes := u64be 1 ++ [c]

/-- `log.rs::LogOperation`. The tag bytes used on disk are
112 (`'p'`) for `Put` and 100 (`'d'`) for `Delete`. -/
inductive LogOperation
  | put (key value : Bytes)
  | del (key : Bytes)
deriving DecidableEq

/-- The byte encoding of one operation as produced by `Log::append`
(`log.rs` lines 41-57). -/
def encodeOp : LogOperation → Bytes
  | .put k v => encodeChar 112 ++ (lenPrefixed k ++ lenPrefixed v)
  | .del k => encodeChar 100 ++ lenPrefixed k

/-- Concatenated encoding of a list of operations, in append order. -/
def encodeOps : List LogOperation → Bytes
  | [] => []
  | op :: rest => encodeOp op ++ encodeOps rest

/-- `error.rs::LogError`. `ioErr` stands for the `Io(std::io::Error)`
variant. -/
inductive LogError
  | endReached
  | invalidOperation (c : Nat)
  | ioErr
deriving DecidableEq

/-- `error.rs::LockKind`. -/
inductive LockKind
  | read
  | write
deriving DecidableEq

/-- `error.rs::DatabaseError`. `notFound` stands for the
`NotFound(std::io::Error)` variant, which every `?`-propagated
`std::io::Error` becomes; `other` wraps a `LogError`. -/
inductive DatabaseError
  | initialization
  | lock (kind : LockKind) (reason : Option String)
  | notFound
  | keyNotFound (s : String)
  | loadCheckpoint
  | other (e : LogError)
deriving DecidableEq

/-- Result of `Log::read_instruction_from_log` (`log.rs` lines 103-109):
either the decoded bytes together with the remaining stream, or a process
panic (the source uses `expect` for a short length read and `panic!` for a
short payload read). -/
inductive InstrRes
  | ok (bytes : Bytes) (rest : Bytes)
  | panicked (msg : String)
deriving DecidableEq

/-- `Log::read_instruction_from_log`: read an 8-byte big-endian length
(`read_u64_from_log`, which panics via `expect` when fewer than 8 bytes
remain), then read exactly that many payload bytes
(`read_bytes_from_log`, whose error is turned into a panic by the source's
`panic!`). -/
def readInstrFromLog (s : Bytes) : InstrRes :=
  if 8 ≤ s.length then
    let n := fromBeBytes (s.take 8)
    let r := s.drop 8
    if n ≤ r.length then .ok (r.take n) (r.drop n)
    else .panicked ("Unable to read instruction from log")
  else .panicked ("Failed reading u64 from log")

/-- Result of `Log::read_operation_from_log` (`log.rs` lines 78-101). -/
inductive ReadOpRes
  | ok (op : LogOperation) (rest : Bytes)
  | err (e : LogError)
  | panicked (msg : String)
deriving DecidableEq

/-- `Log::read_operation_from_log`: read 9 bytes (`op_len_buf`; a failed
`read_exact` becomes `EndReached`), interpret byte index 8 as the tag
(the 8-byte tag length prefix is read but ignored), then decode the
instructions for tag `'p'` (112) or `'d'` (100); any other tag is
`InvalidOperation`. -/
def readOperationFromLog (s : Bytes) : ReadOpRes :=
  if 9 ≤ s.length then
    let tag := s.getD 8 0
    let r := s.drop 9
    if tag = 112 then
      match readInstrFromLog r with
      | .ok key r1 =>
        match readInstrFromLog r1 with
        | .ok value r2 => .ok (.put key value) r2
        | .panicked m => .panicked m
      | .panicked m => .panicked m
    else if tag = 100 then
      match readInstrFromLog r with
      | .ok key r1 => .ok (.del key) r1
      | .panicked m => .panicked m
    else .err (.invalidOperation tag)
  else .err .endReached

/-- Result of `Log::read_until_empty` (`log.rs` lines 60-75): the loop
itself never returns an `Err` value (every decode error ends the loop
cleanly), so the outcomes are the decoded operation list or a panic
propagated from `read_instruction_from_log`. -/
inductive ReplayRes
  | ok (ops : List LogOperation)
  | panicked (msg : String)
deriving DecidableEq

/-- Fuel-indexed body of the `read_until_empty` loop: as in the source,
a successful read is accumulated and ANY error result (including
`InvalidOperation`) sets `end_reached` and terminates the loop cleanly.
Each iteration consumes at least 9 bytes, so fuel `s.length + 1` is never
exhausted. -/
def readUntilEmptyGo : Nat → Bytes → ReplayRes
  | 0, _ => .panicked ("out of fuel")
  | fuel + 1, s =>
    match readOperationFromLog s with
    | .ok op rest =>
      match readUntilEmptyGo fuel rest with
      | .ok ops => .ok (op :: ops)
      | .panicked m => .panicked m
    | .err _ => .ok []
    | .panicked m => .panicked m

/-- `Log::read_until_empty`, starting from the rewound stream. -/
def readUntilEmpty (s : Bytes) : ReplayRes := readUntilEmptyGo (s.length + 1) s

/-- Result of `SimpleDB::read_records_from_file` (`db.rs` lines 182-196). -/
inductive CkptRes
  | ok (pairs : List (Bytes × Bytes))
  | err (e : DatabaseError)
  | panicked (msg : String)
deriving DecidableEq

/-- Fuel-indexed body of the `read_records_from_file` loop: while bytes
remain, read a key length (`bytes::read_u64_from_log`, panics via `expect`
on a short read), the key (a short read is an `Err` propagated by `?` as
`DatabaseError::NotFound`), then the value length and value likewise.
Pairs are returned in read order; the caller folds them into the map by
`insert`. -/
def readRecordsGo : Nat → Bytes → CkptRes
  | 0, _ => .panicked ("out of fuel")
  | fuel + 1, s =>
    if s.isEmpty then .ok []
    else if 8 ≤ s.length then
      let klen := fromBeBytes (s.take 8)
      let r := s.drop 8
      if klen ≤ r.length then
        let key := r.take klen
        let r2 := r.drop klen
        if 8 ≤ r2.length then
          let vlen := fromBeBytes (r2.take 8)
          let r3 := r2.drop 8
          if vlen ≤ r3.length then
            match readRecordsGo fuel (r3.drop vlen) with
            | .ok pairs => .ok ((key, r3.take vlen) :: pairs)
            | .err e => .err e
            | .panicked m => .panicked m
          else .err DatabaseError.notFound
        else .panicked ("Failed reading u64 from log")
      else .err DatabaseError.notFound
    else .panicked ("Failed reading u64 from log")

/-- `SimpleDB::read_records_from_file` on the whole file contents. -/
def readRecordsFromFile (s : Bytes) : CkptRes := readRecordsGo (s.length + 1) s

/-- `HashMap::remove`: drop the binding for `k`. -/
def eraseRec (k : Bytes) (m : RecList) : RecList :=
  m.filter (fun p => decide (p.1 ≠ k))

/-- `HashMap::insert`: bind `k` to `v`, replacing any previous binding. -/
def insertRec (k v : Bytes) (m : RecList) : RecList := (k, v) :: eraseRec k m

/-- `HashMap::get`. -/
def lookupRec (k : Bytes) (m : RecList) : Option Bytes :=
  match m.find? (fun p => decide (p.1 = k)) with
  | some p => some p.2
  | none => none

/-- Replay application of one decoded operation onto the map
(`db.rs` lines 143-148): `Put` inserts or overwrites, `Delete` removes. -/
def applyLogOp (m : RecList) (op : LogOperation) : RecList :=
  match op with
  | .put k v => insertRec k v m
  | .del k => eraseRec k m

/-- `SimpleDB::write_records_to_file` buffer contents: each key/value pair
length-prefix encoded, in the map's iteration order (`db.rs` lines
159-180). -/
def serializeRecords : RecList → Bytes
  | [] => []
  | p :: rest => lenPrefixed p.1 ++ (lenPrefixed p.2 ++ serializeRecords rest)

/-- The store directory on disk: `version` and `new_version` marker files
(holding a decimal version number when present) and the per-version
`checkpoint.<n>` and `logfile.<n>` files. -/
@[ext]
structure Disk where
  versionFile : Option Nat
  newVersionFile : Option Nat
  checkpoints : Nat → Option Bytes
  logfiles : Nat → Option Bytes

/-- `db.rs::SimpleDB`: the in-memory record set, the current version, the
version whose `logfile.<n>` the active `Log` handle points at, and the
`commit_in_progress` flag. -/
structure SimpleDB where
  records : RecList
  version : Nat
  logVersion : Nat
  commitInProgress : Bool
deriving DecidableEq

/-- `SimpleDB::get` (`db.rs` lines 59-64): a read-only lookup in the
record set, touching no disk state (the function does not even take the
`Disk`). `lockOk` is the outcome of `records.read().ok()`; a failed
read-lock acquisition yields `None` through the `Option` chain. -/
def dbGet (db : SimpleDB) (lockOk : Bool) (k : Bytes) : Option Bytes :=
  if lockOk then lookupRec k db.records else none

/-- `Log::append` followed by `sync_data` (`Log::append_to_disk`): seek to
the end of the active WAL file and append the encoded operation. -/
def appendToDisk (db : SimpleDB) (disk : Disk) (op : LogOperation) : Disk :=
  { disk with
    logfiles := fun n =>
      if n = db.logVersion then
        some ((disk.logfiles db.logVersion).getD [] ++ encodeOp op)
      else disk.logfiles n }

/-- `SimpleDB::put` (`db.rs` lines 66-82): first the durable WAL append
(`appendOk` is the IO outcome of `append_to_disk`; on failure the
`LogError` is surfaced as `DatabaseError::Other` and nothing changes),
then `get_write_records`, which rejects with a `Lock` error when
`commit_in_progress` is set (`db.rs` lines 198-217), then the map
insertion. -/
def dbPut (appendOk : Bool) (db : SimpleDB) (disk : Disk) (k v : Bytes) :
    Option DatabaseError × SimpleDB × Disk :=
  if appendOk then
    let disk1 := appendToDisk db disk (.put k v)
    if db.commitInProgress then
      (some (DatabaseError.lock .write (some ("Commit in progress"))), db, disk1)
    else
      (none, { db with records := insertRec k v db.records }, disk1)
  else (some (DatabaseError.other .ioErr), db, disk)

/-- `SimpleDB::delete` (`db.rs` lines 84-92), symmetric with `put`. -/
def dbDelete (appendOk : Bool) (db : SimpleDB) (disk : Disk) (k : Bytes) :
    Option DatabaseError × SimpleDB × Disk :=
  if appendOk then
    let disk1 := appendToDisk db disk (.del k)
    if db.commitInProgress then
      (some (DatabaseError.lock .write (some ("Commit in progress"))), db, disk1)
    else
      (none, { db with records := eraseRec k db.records }, disk1)
  else (some (DatabaseError.other .ioErr), db, disk)

/-- IO outcome oracle for the fallible filesystem steps of
`SimpleDB::commit` (`db.rs` lines 94-117) and
`cleanup_previous_commit_files` (lines 219-237): `true` means the syscall
succeeds. -/
structure CommitFlags where
  createMarker : Bool
  createCheckpoint : Bool
  writeCheckpoint : Bool
  createLog : Bool
  openLog : Bool
  removeOldLog : Bool
  removeOldCheckpoint : Bool
  removeVersionFile : Bool
  renameMarker : Bool
deriving DecidableEq

/-- The all-success IO oracle. -/
def allOk : CommitFlags :=
  { createMarker := true, createCheckpoint := true, writeCheckpoint := true,
    createLog := true, openLog := true, removeOldLog := true,
    removeOldCheckpoint := true, removeVersionFile := true,
    renameMarker := true }

/-- Result of `SimpleDB::commit`. Error returns carry the mutated receiver
state (the source mutates `self` in place); the `expect` on
`cleanup_previous_commit_files` is a panic outcome, which carries the disk
state at the moment the process dies. -/
inductive CommitRes
  | ok (db : SimpleDB) (disk : Disk)
  | err (e : DatabaseError) (db : SimpleDB) (disk : Disk)
  | panicked (msg : String) (disk : Disk)

def CommitRes.isOk : CommitRes → Bool
  | .ok _ _ => true
  | _ => false

def CommitRes.isErr : CommitRes → Bool
  | .err _ _ _ => true
  | _ => false

def CommitRes.isPanic : CommitRes → Bool
  | .panicked _ _ => true
  | _ => false

def CommitRes.errDb : CommitRes → Option SimpleDB
  | .err _ db _ => some db
  | _ => none

def CommitRes.okDb : CommitRes → Option SimpleDB
  | .ok db _ => some db
  | _ => none

/-- `SimpleDB::commit` (`db.rs` lines 94-117), step by step:
set `commit_in_progress`; write the `new_version` marker; create the new
checkpoint file and serialize the record set into it; create and open the
new empty WAL (the handle pivots to `logfile.<new>`); clear
`commit_in_progress`; then `cleanup_previous_commit_files` (remove
`logfile.<old>`, `checkpoint.<old>` and `version`, and rename
`new_version` to `version`) under `expect`, so any cleanup failure —
an IO failure or a missing file — panics instead of returning; finally
set `self.version = new_version`. Early `?` errors leave the flag set and
the version unchanged. `remove_file` and `rename` fail when their source
file does not exist. -/
def dbCommit (io : CommitFlags) (db : SimpleDB) (disk : Disk) : CommitRes :=
  let db1 := { db with commitInProgress := true }
  let nv := db.version + 1
  if io.createMarker = false then .err DatabaseError.notFound db1 disk else
  let disk1 := { disk with newVersionFile := some nv }
  if io.createCheckpoint = false then .err DatabaseError.notFound db1 disk1 else
  let disk2 := { disk1 with
    checkpoints := fun n => if n = nv then some [] else disk1.checkpoints n }
  if io.writeCheckpoint = false then .err DatabaseError.notFound db1 disk2 else
  let disk3 := { disk2 with
    checkpoints := fun n =>
      if n = nv then some (serializeRecords db.records) else disk2.checkpoints n }
  if io.createLog = false then .err DatabaseError.notFound db1 disk3 else
  let disk4 := { disk3 with
    logfiles := fun n => if n = nv then some [] else disk3.logfiles n }
  if io.openLog = false then .err DatabaseError.notFound db1 disk4 else
  let db2 := { db1 with logVersion := nv, commitInProgress := false }
  if io.removeOldLog = false ∨ (disk4.logfiles db.version).isNone then
    .panicked ("Failed to cleanup previous commit files") disk4 else
  let disk5 := { disk4 with
    logfiles := fun n => if n = db.version then none else disk4.logfiles n }
  if io.removeOldCheckpoint = false ∨ (disk5.checkpoints db.version).isNone then
    .panicked ("Failed to cleanup previous commit files") disk5 else
  let disk6 := { disk5 with
    checkpoints := fun n => if n = db.version then none else disk5.checkpoints n }
  if io.removeVersionFile = false ∨ disk6.versionFile.isNone then
    .panicked ("Failed to cleanup previous commit files") disk6 else
  let disk7 := { disk6 with versionFile := none }
  if io.renameMarker = false ∨ disk7.newVersionFile.isNone then
    .panicked ("Failed to cleanup previous commit files") disk7 else
  let disk8 := { disk7 with
    versionFile := disk7.newVersionFile, newVersionFile := none }
  .ok { db2 with version := nv } disk8

/-- Result of `SimpleDB::open` / `try_load_from_existing`. -/
inductive OpenRes
  | ok (db : SimpleDB) (disk : Disk)
  | err (e : DatabaseError)
  | panicked (msg : String)

def OpenRes.isOk : OpenRes → Bool
  | .ok _ _ => true
  | _ => false

def OpenRes.isPanic : OpenRes → Bool
  | .panicked _ => true
  | _ => false

def OpenRes.okDb : OpenRes → Option SimpleDB
  | .ok db _ => some db
  | _ => none

def OpenRes.okDisk : OpenRes → Option Disk
  | .ok _ disk => some disk
  | _ => none

/-- The shared tail of `try_load_from_existing` (`db.rs` lines 135-156)
once the authoritative version `v` is known: open `checkpoint.<v>` (a
missing file is an IO error), decode it (`Err` becomes `LoadCheckpoint`, a
panic propagates), fold the pairs into a fresh map by `insert`, open
`logfile.<v>`, replay it (`read_until_empty`), and apply the replayed
operations in order. -/
def loadAtVersion (disk : Disk) (v : Nat) : OpenRes :=
  match disk.checkpoints v with
  | none => .err DatabaseError.notFound
  | some cbytes =>
    match readRecordsFromFile cbytes with
    | .panicked m => .panicked m
    | .err _ => .err DatabaseError.loadCheckpoint
    | .ok pairs =>
      let ckpt := pairs.foldl (fun m p => insertRec p.1 p.2 m) []
      match disk.logfiles v with
      | none => .err DatabaseError.notFound
      | some lbytes =>
        match readUntilEmpty lbytes with
        | .panicked m => .panicked m
        | .ok ops =>
          .ok { records := ops.foldl applyLogOp ckpt, version := v,
                logVersion := v, commitInProgress := false } disk

/-- `SimpleDB::try_load_from_existing` (`db.rs` lines 123-157): if the
`new_version` marker exists, read its number and DELETE the marker, using
that number as the authoritative version; otherwise read the canonical
`version` marker. The canonical marker is never rewritten here. -/
def tryLoadFromExisting (disk : Disk) : OpenRes :=
  match disk.newVersionFile with
  | some v => loadAtVersion { disk with newVersionFile := none } v
  | none =>
    match disk.versionFile with
    | some v => loadAtVersion disk v
    | none => .err DatabaseError.notFound

/-- The freshly created store state (`db.rs` lines 38-55): version 0,
empty record set, empty `checkpoint.0` and `logfile.0`, canonical marker
`version = 0`. -/
def freshDb : SimpleDB :=
  { records := [], version := 0, logVersion := 0, commitInProgress := false }

/-- The freshly created store directory. -/
def freshDisk : Disk :=
  { versionFile := some 0, newVersionFile := none,
    checkpoints := fun n => if n = 0 then some [] else none,
    logfiles := fun n => if n = 0 then some [] else none }

/-- `SimpleDB::open` (`db.rs` lines 34-57): `none` stands for a path with
no existing store (the creation branch), `some disk` for an existing
store directory (the recovery branch). -/
def dbOpen : Option Disk → OpenRes
  | some disk => tryLoadFromExisting disk
  | none => .ok freshDb freshDisk

/-- A user-level mutation request, used to express "a sequence of
put/delete calls". -/
inductive DbAction
  | putA (k v : Bytes)
  | delA (k : Bytes)
deriving DecidableEq

def DbAction.toLogOp : DbAction → LogOperation
  | .putA k v => .put k v
  | .delA k => .del k

def DbAction.key : DbAction → Bytes
  | .putA k _ => k
  | .delA k => k

/-- Run a sequence of put/delete calls whose WAL appends all succeed,
threading the engine and disk state. -/
def runActions : SimpleDB × Disk → List DbAction → SimpleDB × Disk
  | st, [] => st
  | (db, disk), .putA k v :: rest => runActions (dbPut true db disk k v).2 rest
  | (db, disk), .delA k :: rest => runActions (dbDelete true db disk k).2 rest

/-- The key an operation acts on. -/
def opKey : LogOperation → Bytes
  | .put k _ => k
  | .del k => k

/-- Well-formed operation: key and value lengths fit in a `u64` (true of
every real `Vec<u8>`, whose length is a `usize`). -/
def opWf : LogOperation → Bool
  | .put k v => k.length < 2 ^ 64 && v.length < 2 ^ 64
  | .del k => k.length < 2 ^ 64

def opsWf (ops : List LogOperation) : Bool := ops.all opWf

def actsWf (acts : List DbAction) : Bool := acts.all (fun a => opWf a.toLogOp)

/-- Well-formed record set: unique keys (a `HashMap` invariant) and
`u64`-bounded key/value lengths. -/
def recordsWf (m : RecList) : Bool :=
  decide (m.map Prod.fst).Nodup &&
    m.all (fun p => p.1.length < 2 ^ 64 && p.2.length < 2 ^ 64)

/-- Well-formed store state: a well-formed record set, and the current
version's `logfile.<v>` and `checkpoint.<v>` plus the canonical `version`
marker present on disk — all invariants of every reachable state, and the
files `cleanup_previous_commit_files` removes. -/
def dbDiskWf (db : SimpleDB) (disk : Disk) : Bool :=
  recordsWf db.records && (disk.logfiles db.version).isSome &&
    (disk.checkpoints db.version).isSome && disk.versionFile.isSome

/-- Decidable record-set equivalence: the two maps agree on every bound
key (for unique-key maps this is exactly extensional lookup equality). -/
def recEquiv (m1 m2 : RecList) : Bool :=
  m1.all (fun p => decide (lookupRec p.1 m2 = some p.2)) &&
    m2.all (fun p => decide (lookupRec p.1 m1 = some p.2))

/-- Commit with the all-success IO oracle, then reopen from the resulting
disk, returning (state after commit, disk after commit, state after
reopen). -/
def commitThenReopen (db : SimpleDB) (disk : Disk) :
    Option (SimpleDB × Disk × SimpleDB) :=
  match dbCommit allOk db disk with
  | .ok db1 disk1 =>
    match dbOpen (some disk1) with
    | .ok db2 _ => some (db1, disk1, db2)
    | _ => none
  | _ => none

/-- Post-state asserted by claim C1 for a successful commit followed by a
restart: the commit and the reopen succeed, the version advanced by
exactly one (both in memory and after restart), the reopened record set
equals the record set at commit time, `checkpoint.<old>` and
`logfile.<old>` are gone, `checkpoint.<new>` and `logfile.<new>` exist,
and the canonical marker names the new version. -/
def C1Post (db : SimpleDB) (disk : Disk) : Prop :=
  match commitThenReopen db disk with
  | some (db1, disk1, db2) =>
      db1.version = db.version + 1 ∧
      db2.version = db.version + 1 ∧
      recEquiv db2.records db.records = true ∧
      disk1.checkpoints db.version = none ∧
      disk1.logfiles db.version = none ∧
      (disk1.checkpoints (db.version + 1)).isSome = true ∧
      (disk1.logfiles (db.version + 1)).isSome = true ∧
      disk1.versionFile = some (db.version + 1) ∧
      disk1.newVersionFile = none
  | none => False

/-- Case analysis of a `commit` call under an arbitrary IO oracle:
success means the new version is fully pivoted; an error return leaves
the version, the old version's files and the canonical marker untouched
and a retry of `commit` with working IO succeeds (though the
`commit_in_progress` flag is left set); a panic can arise only from a
failing cleanup syscall after the pivot. -/
def C7Post (io : CommitFlags) (db : SimpleDB) (disk : Disk) : Prop :=
  match dbCommit io db disk with
  | .ok db1 disk1 =>
      db1.version = db.version + 1 ∧ db1.commitInProgress = false ∧
      disk1.checkpoints db.version = none ∧ disk1.logfiles db.version = none ∧
      (disk1.checkpoints db1.version).isSome = true ∧
      (disk1.logfiles db1.version).isSome = true ∧
      disk1.versionFile = some db1.version
  | .err _ db1 disk1 =>
      db1.version = db.version ∧
      db1.records = db.records ∧
      db1.commitInProgress = true ∧
      disk1.checkpoints db.version = disk.checkpoints db.version ∧
      disk1.logfiles db.version = disk.logfiles db.version ∧
      disk1.versionFile = disk.versionFile ∧
      (dbCommit allOk db1 disk1).isOk = true
  | .panicked _ _ =>
      io.removeOldLog = false ∨ io.removeOldCheckpoint = false ∨
      io.removeVersionFile = false ∨ io.renameMarker = false

/-- An IO oracle whose pending-marker creation fails: the earliest error
return inside `commit`, which leaves `commit_in_progress` set. -/
def ioNoMarker : CommitFlags := { allOk with createMarker := false }

/-- An IO oracle whose first cleanup `remove_file` fails, hitting the
`expect` in `commit`. -/
def ioNoCleanup : CommitFlags := { allOk with removeOldLog := false }

/-- The engine state `commit` leaves behind when writing the pending
marker fails on a fresh store: the flag is set, nothing else changed. -/
def dbMidPivot : SimpleDB :=
  { records := [], version := 0, logVersion := 0, commitInProgress := true }

/-- The disk left by a crash after step 4 of the commit protocol on a
fresh store that had logged `put [1] [2]`: the pending marker names
version 1, whose checkpoint and empty WAL are fully written, while the
stale canonical marker still names version 0. -/
def diskPending : Disk :=
  { versionFile := some 0, newVersionFile := some 1,
    checkpoints := fun n =>
      if n = 0 then some [] else
      if n = 1 then some (serializeRecords [([1], [2])]) else none,
    logfiles := fun n =>
      if n = 0 then some (encodeOp (.put [1] [2])) else
      if n = 1 then some [] else none }

/-- Recovery from `diskPending`: the engine state and the disk after
`open`. -/
def c4FirstRecovery : Option (SimpleDB × Disk) :=
  match dbOpen (some diskPending) with
  | .ok d k => some (d, k)
  | _ => none

/-- Continuation of the C4 scenario: after the first recovery, perform a
successful durable `put [7] [8]`, then restart once more. -/
def c4SecondOpen : Option SimpleDB :=
  match dbOpen (some diskPending) with
  | .ok d1 k1 =>
    match dbPut true d1 k1 [7] [8] with
    | (none, _, k2) =>
      match dbOpen (some k2) with
      | .ok d3 _ => some d3
      | _ => none
    | _ => none
  | _ => none

/-- A fresh store whose `logfile.0` holds a single entry with the
unrecognized tag byte 120 (`'x'`). -/
def diskBadTag : Disk :=
  { freshDisk with
    logfiles := fun n => if n = 0 then some (encodeChar 120) else none }

/-- A fresh store whose `logfile.0` holds a `'p'` entry whose declared
key length (5) exceeds the remaining payload (2 bytes). -/
def diskTrunc : Disk :=
  { freshDisk with
    logfiles := fun n =>
      if n = 0 then some (encodeChar 112 ++ (u64be 5 ++ [1, 2])) else none }

/-- The C2 counterexample scenario: create a fresh store, durably
`put [1] [2]`, `commit`, restart (this is "an opened store"), issue the
empty sequence of put/delete calls, and restart again without commit;
returns the final reopened engine state. -/
def c2Chain : Option SimpleDB :=
  match dbOpen none with
  | .ok d0 k0 =>
    match dbPut true d0 k0 [1] [2] with
    | (none, d1, k1) =>
      match dbCommit allOk d1 k1 with
      | .ok _ k2 =>
        match dbOpen (some k2) with
        | .ok _ k3 =>
          match dbOpen (some k3) with
          | .ok d4 _ => some d4
          | _ => none
        | _ => none
      | _ => none
    | _ => none
  | _ => none

/-- Concrete store used by witness instantiations: one record, at
version 3, with its files present on disk. -/
def wDb : SimpleDB :=
  { records := [([1], [2])], version := 3, logVersion := 3,
    commitInProgress := false }

/-- Disk matching `wDb`. -/
def wDisk : Disk :=
  { versionFile := some 3, newVersionFile := none,
    checkpoints := fun n =>
      if n = 3 then some (serializeRecords [([1], [2])]) else none,
    logfiles := fun n => if n = 3 then some [] else none }

/-- The disk obtained by appending `bs` to the end of `logfile.<lv>`
(the cumulative effect of a sequence of WAL appends). -/
def appendedDisk (disk : Disk) (lv : Nat) (bs : Bytes) : Disk :=
  { disk with logfiles := fun n =>
      if n = lv then some ((disk.logfiles lv).getD [] ++ bs)
      else disk.logfiles n }

theorem beBytesAux_length (k n : Nat) : (beBytesAux k n).length = k := by
  induction k generalizing n with
  | zero => rfl
  | succ k ih => simp [beBytesAux, ih]

theorem u64be_length (n : Nat) : (u64be n).length = 8 := beBytesAux_length 8 n

theorem fromBeBytes_append_one (l : List Nat) (b : Nat) :
    fromBeBytes (l ++ [b]) = fromBeBytes l * 256 + b := by
  simp [fromBeBytes, List.foldl_append]

theorem fromBeBytes_beBytesAux (k n : Nat) :
    fromBeBytes (beBytesAux k n) = n % 256 ^ k := by
  induction k generalizing n with
  | zero => simp [beBytesAux, fromBeBytes, Nat.mod_one]
  | succ k ih =>
      rw [beBytesAux, fromBeBytes_append_one, ih, pow_succ,
        mul_comm ((256 : Nat) ^ k) 256, Nat.mod_mul]
      generalize n / 256 % 256 ^ k = e
      omega

theorem fromBeBytes_u64be (n : Nat) (h : n < 2 ^ 64) :
    fromBeBytes (u64be n) = n := by
  have h2 : (256 : Nat) ^ 8 = 2 ^ 64 := by norm_num
  rw [u64be, fromBeBytes_beBytesAux, h2, Nat.mod_eq_of_lt h]

theorem readInstrFromLog_lenPrefixed (b rest : Bytes) (h : b.length < 2 ^ 64) :
    readInstrFromLog (lenPrefixed b ++ rest) = .ok b rest := by
  have hlen : (u64be b.length).length = 8 := u64be_length _
  have e1 : lenPrefixed b ++ rest = u64be b.length ++ (b ++ rest) := by
    simp [lenPrefixed]
  have hc : 8 ≤ (u64be b.length ++ (b ++ rest)).length := by
    simp [u64be_length]
  rw [e1, readInstrFromLog, if_pos hc, List.take_left' hlen,
    List.drop_left' hlen, fromBeBytes_u64be _ h,
    if_pos (by simp : b.length ≤ (b ++ rest).length),
    List.take_left, List.drop_left]

theorem encodeChar_cons (c : Nat) (t : Bytes) :
    encodeChar c ++ t = 0 :: 0 :: 0 :: 0 :: 0 :: 0 :: 0 :: 1 :: c :: t := by
  simp [encodeChar, u64be, beBytesAux]

theorem readOperationFromLog_encodeOp (op : LogOperation) (rest : Bytes)
    (h : opWf op = true) :
    readOperationFromLog (encodeOp op ++ rest) = .ok op rest := by
  cases op with
  | put k v =>
      simp only [opWf, Bool.and_eq_true, decide_eq_true_eq] at h
      rw [show encodeOp (.put k v) ++ rest =
          encodeChar 112 ++ (lenPrefixed k ++ (lenPrefixed v ++ rest)) from by
        simp [encodeOp], encodeChar_cons, readOperationFromLog]
      simp [List.getD_cons_succ, List.getD_cons_zero,
        readInstrFromLog_lenPrefixed _ _ h.1, readInstrFromLog_lenPrefixed _ _ h.2]
  | del k =>
      simp only [opWf, decide_eq_true_eq] at h
      rw [show encodeOp (.del k) ++ rest =
          encodeChar 100 ++ (lenPrefixed k ++ rest) from by
        simp [encodeOp], encodeChar_cons, readOperationFromLog]
      simp [List.getD_cons_succ, List.getD_cons_zero,
        readInstrFromLog_lenPrefixed _ _ h]

theorem readOperationFromLog_badTag (t : Nat) (rest : Bytes)
    (h1 : t ≠ 112) (h2 : t ≠ 100) :
    readOperationFromLog (encodeChar t ++ rest) = .err (.invalidOperation t) := by
  rw [encodeChar_cons, readOperationFromLog]
  simp [List.getD_cons_succ, List.getD_cons_zero, h1, h2]

theorem readOperationFromLog_nil : readOperationFromLog [] = .err .endReached := by
  simp [readOperationFromLog]

theorem encodeOp_length (op : LogOperation) : 9 ≤ (encodeOp op).length := by
  cases op <;> simp [encodeOp, encodeChar_cons]

theorem readUntilEmptyGo_encode (ops : List LogOperation) (B : Bytes)
    (e : LogError) (hwf : opsWf ops = true)
    (hB : readOperationFromLog B = .err e) :
    ∀ fuel, (encodeOps ops ++ B).length + 1 ≤ fuel →
      readUntilEmptyGo fuel (encodeOps ops ++ B) = .ok ops := by
  induction ops with
  | nil =>
      intro fuel hfuel
      cases fuel with
      | zero => omega
      | succ f => simp [readUntilEmptyGo, encodeOps, hB]
  | cons op rest ih =>
      intro fuel hfuel
      cases fuel with
      | zero => omega
      | succ f =>
          simp only [opsWf, List.all_cons, Bool.and_eq_true] at hwf
          have hlen := encodeOp_length op
          have e1 : encodeOps (op :: rest) ++ B =
              encodeOp op ++ (encodeOps rest ++ B) := by
            simp [encodeOps]
          have hf : (encodeOps rest ++ B).length + 1 ≤ f := by
            rw [e1] at hfuel
            simp only [List.length_append] at hfuel ⊢
            omega
          rw [e1, readUntilEmptyGo,
            readOperationFromLog_encodeOp op (encodeOps rest ++ B) hwf.1]
          simp [ih hwf.2 f hf]

theorem readUntilEmpty_encodeOps (ops : List LogOperation)
    (hwf : opsWf ops = true) :
    readUntilEmpty (encodeOps ops) = .ok ops := by
  have h := readUntilEmptyGo_encode ops [] .endReached hwf
    readOperationFromLog_nil ((encodeOps ops ++ []).length + 1) (by omega)
  rw [List.append_nil] at h
  exact h

theorem readUntilEmpty_encodeOps_badTail (ops : List LogOperation) (t : Nat)
    (rest : Bytes) (hwf : opsWf ops = true) (h1 : t ≠ 112) (h2 : t ≠ 100) :
    readUntilEmpty (encodeOps ops ++ (encodeChar t ++ rest)) = .ok ops :=
  readUntilEmptyGo_encode ops (encodeChar t ++ rest) (.invalidOperation t) hwf
    (readOperationFromLog_badTag t rest h1 h2)
    ((encodeOps ops ++ (encodeChar t ++ rest)).length + 1) (by omega)

theorem u64be_ne_nil (n : Nat) : u64be n ≠ [] := by
  intro hh
  have h8 := u64be_length n
  rw [hh] at h8
  simp at h8

theorem readRecordsGo_serialize (m : RecList)
    (hwf : m.all (fun p => p.1.length < 2 ^ 64 && p.2.length < 2 ^ 64) = true) :
    ∀ fuel, (serializeRecords m).length + 1 ≤ fuel →
      readRecordsGo fuel (serializeRecords m) = .ok m := by
  induction m with
  | nil =>
      intro fuel hfuel
      cases fuel with
      | zero => omega
      | succ f => simp [readRecordsGo, serializeRecords]
  | cons p rest ih =>
      intro fuel hfuel
      cases fuel with
      | zero => omega
      | succ f =>
          simp only [List.all_cons, Bool.and_eq_true, decide_eq_true_eq] at hwf
          obtain ⟨⟨hk, hv⟩, hrest⟩ := hwf
          have hkl : (u64be p.1.length).length = 8 := u64be_length _
          have hvl : (u64be p.2.length).length = 8 := u64be_length _
          have e1 : serializeRecords (p :: rest) =
              u64be p.1.length ++
                (p.1 ++ (u64be p.2.length ++ (p.2 ++ serializeRecords rest))) := by
            simp [serializeRecords, lenPrefixed]
          have h0 : ¬((u64be p.1.length ++
              (p.1 ++ (u64be p.2.length ++ (p.2 ++ serializeRecords rest)))).isEmpty
                = true) := by
            simp [List.isEmpty_eq_true, List.append_eq_nil, u64be_ne_nil]
          have h8a : 8 ≤ (u64be p.1.length ++
              (p.1 ++ (u64be p.2.length ++ (p.2 ++ serializeRecords rest)))).length := by
            simp [hkl]
          rw [e1, readRecordsGo, if_neg h0, if_pos h8a, List.take_left' hkl,
            List.drop_left' hkl, fromBeBytes_u64be _ hk,
            if_pos (by simp :
              p.1.length ≤ (p.1 ++ (u64be p.2.length ++ (p.2 ++ serializeRecords rest))).length),
            List.take_left, List.drop_left,
            if_pos (by simp [hvl] :
              8 ≤ (u64be p.2.length ++ (p.2 ++ serializeRecords rest)).length),
            List.take_left' hvl, List.drop_left' hvl, fromBeBytes_u64be _ hv,
            if_pos (by simp : p.2.length ≤ (p.2 ++ serializeRecords rest).length),
            List.take_left, List.drop_left]
          have hf : (serializeRecords rest).length + 1 ≤ f := by
            rw [e1] at hfuel
            simp only [List.length_append, hkl, hvl] at hfuel ⊢
            omega
          simp [ih hrest f hf]

theorem readRecordsFromFile_serialize (m : RecList)
    (hwf : m.all (fun p => p.1.length < 2 ^ 64 && p.2.length < 2 ^ 64) = true) :
    readRecordsFromFile (serializeRecords m) = .ok m :=
  readRecordsGo_serialize m hwf ((serializeRecords m).length + 1) (by omega)

theorem lookupRec_nil (k : Bytes) : lookupRec k [] = none := rfl

theorem lookupRec_cons (k : Bytes) (p : Bytes × Bytes) (m : RecList) :
    lookupRec k (p :: m) = if p.1 = k then some p.2 else lookupRec k m := by
  by_cases h : p.1 = k <;> simp [lookupRec, List.find?_cons, h]

theorem eraseRec_cons_self (k : Bytes) (p : Bytes × Bytes) (m : RecList)
    (h : p.1 = k) : eraseRec k (p :: m) = eraseRec k m := by
  simp [eraseRec, List.filter_cons, h]

theorem eraseRec_cons_ne (k : Bytes) (p : Bytes × Bytes) (m : RecList)
    (h : ¬(p.1 = k)) : eraseRec k (p :: m) = p :: eraseRec k m := by
  simp [eraseRec, List.filter_cons, h]

theorem lookupRec_erase_self (k : Bytes) (m : RecList) :
    lookupRec k (eraseRec k m) = none := by
  induction m with
  | nil => rfl
  | cons p rest ih =>
      by_cases h : p.1 = k
      · rw [eraseRec_cons_self k p rest h]
        exact ih
      · rw [eraseRec_cons_ne k p rest h, lookupRec_cons, if_neg h]
        exact ih

theorem lookupRec_erase_ne (k q : Bytes) (m : RecList) (h : q ≠ k) :
    lookupRec q (eraseRec k m) = lookupRec q m := by
  induction m with
  | nil => rfl
  | cons p rest ih =>
      by_cases hp : p.1 = k
      · rw [eraseRec_cons_self k p rest hp, lookupRec_cons,
          if_neg (by rw [hp]; exact fun hh => h hh.symm)]
        exact ih
      · rw [eraseRec_cons_ne k p rest hp, lookupRec_cons, lookupRec_cons]
        by_cases hq : p.1 = q
        · rw [if_pos hq, if_pos hq]
        · rw [if_neg hq, if_neg hq]
          exact ih

theorem lookupRec_insert_self (k v : Bytes) (m : RecList) :
    lookupRec k (insertRec k v m) = some v := by
  rw [insertRec, lookupRec_cons, if_pos rfl]

theorem lookupRec_insert_ne (k v q : Bytes) (m : RecList) (h : q ≠ k) :
    lookupRec q (insertRec k v m) = lookupRec q m := by
  rw [insertRec, lookupRec_cons, if_neg (fun hh => h hh.symm)]
  exact lookupRec_erase_ne k q m h

theorem nodupKeys_erase (k : Bytes) (m : RecList)
    (h : (m.map Prod.fst).Nodup) : ((eraseRec k m).map Prod.fst).Nodup :=
  h.sublist ((List.filter_sublist m).map Prod.fst)

theorem not_mem_keys_erase_self (k : Bytes) (m : RecList) :
    k ∉ (eraseRec k m).map Prod.fst := by
  intro h
  obtain ⟨p, hp, hpk⟩ := List.mem_map.mp h
  rw [eraseRec, List.mem_filter] at hp
  simp only [decide_eq_true_eq] at hp
  exact hp.2 hpk

theorem nodupKeys_insert (k v : Bytes) (m : RecList)
    (h : (m.map Prod.fst).Nodup) : ((insertRec k v m).map Prod.fst).Nodup := by
  rw [insertRec, List.map_cons, List.nodup_cons]
  exact ⟨not_mem_keys_erase_self k m, nodupKeys_erase k m h⟩

theorem lookupRec_eq_none_of_not_mem (k : Bytes) (m : RecList)
    (h : k ∉ m.map Prod.fst) : lookupRec k m = none := by
  induction m with
  | nil => rfl
  | cons p rest ih =>
      rw [List.map_cons, List.mem_cons] at h
      push_neg at h
      rw [lookupRec_cons, if_neg (fun hh => h.1 hh.symm)]
      exact ih h.2

theorem lookupRec_of_mem_nodup (m : RecList) (h : (m.map Prod.fst).Nodup)
    (k v : Bytes) (hmem : (k, v) ∈ m) : lookupRec k m = some v := by
  induction m with
  | nil => cases hmem
  | cons p rest ih =>
      rw [List.map_cons, List.nodup_cons] at h
      rw [List.mem_cons] at hmem
      cases hmem with
      | inl he => rw [← he, lookupRec_cons, if_pos rfl]
      | inr hr =>
          have hk : k ∈ rest.map Prod.fst :=
            List.mem_map.mpr ⟨(k, v), hr, rfl⟩
          rw [lookupRec_cons, if_neg (fun hh => h.1 (by rw [hh]; exact hk))]
          exact ih h.2 hr

theorem lookupRec_foldl_insert (m : RecList) (h : (m.map Prod.fst).Nodup) :
    ∀ (acc : RecList) (k : Bytes),
      lookupRec k (m.foldl (fun a p => insertRec p.1 p.2 a) acc) =
        match lookupRec k m with
        | some v => some v
        | none => lookupRec k acc := by
  induction m with
  | nil => intro acc k; simp [lookupRec_nil]
  | cons p rest ih =>
      intro acc k
      rw [List.map_cons, List.nodup_cons] at h
      rw [List.foldl_cons, ih h.2, lookupRec_cons]
      by_cases hk : p.1 = k
      · rw [if_pos hk, lookupRec_eq_none_of_not_mem k rest (hk ▸ h.1)]
        rw [← hk, lookupRec_insert_self]
      · rw [if_neg hk]
        cases hr : lookupRec k rest with
        | some v => rfl
        | none => simp [lookupRec_insert_ne _ _ _ _ (fun hh => hk hh.symm)]

theorem nodupKeys_foldl_insert (m : RecList) :
    ∀ acc : RecList, (acc.map Prod.fst).Nodup →
      ((m.foldl (fun a p => insertRec p.1 p.2 a) acc).map Prod.fst).Nodup := by
  induction m with
  | nil => intro acc h; exact h
  | cons p rest ih =>
      intro acc h
      rw [List.foldl_cons]
      exact ih _ (nodupKeys_insert p.1 p.2 acc h)

theorem nodupKeys_applyLogOp (m : RecList) (op : LogOperation)
    (h : (m.map Prod.fst).Nodup) : ((applyLogOp m op).map Prod.fst).Nodup := by
  cases op with
  | put k v => exact nodupKeys_insert k v m h
  | del k => exact nodupKeys_erase k m h

theorem nodupKeys_foldl_applyOp (ops : List LogOperation) :
    ∀ m : RecList, (m.map Prod.fst).Nodup →
      ((ops.foldl applyLogOp m).map Prod.fst).Nodup := by
  induction ops with
  | nil => intro m h; exact h
  | cons op rest ih =>
      intro m h
      rw [List.foldl_cons]
      exact ih _ (nodupKeys_applyLogOp m op h)

theorem lookupRec_foldl_applyOp_ne (ops : List LogOperation) (k : Bytes)
    (h : ∀ op ∈ ops, opKey op ≠ k) :
    ∀ m : RecList, lookupRec k (ops.foldl applyLogOp m) = lookupRec k m := by
  induction ops with
  | nil => intro m; rfl
  | cons op rest ih =>
      intro m
      have hop : opKey op ≠ k := h op (List.mem_cons_self op rest)
      have hrest : ∀ o ∈ rest, opKey o ≠ k :=
        fun o ho => h o (List.mem_cons_of_mem op ho)
      rw [List.foldl_cons, ih hrest]
      cases op with
      | put k0 v0 => exact lookupRec_insert_ne k0 v0 k m (fun hh => hop hh.symm)
      | del k0 => exact lookupRec_erase_ne k0 k m (fun hh => hop hh.symm)

theorem recEquiv_of_lookup_eq (m1 m2 : RecList)
    (h1 : (m1.map Prod.fst).Nodup) (h2 : (m2.map Prod.fst).Nodup)
    (h : ∀ k, lookupRec k m1 = lookupRec k m2) : recEquiv m1 m2 = true := by
  simp only [recEquiv, Bool.and_eq_true, List.all_eq_true, decide_eq_true_eq]
  constructor
  · intro p hp
    rw [← h p.1]
    exact lookupRec_of_mem_nodup m1 h1 p.1 p.2 hp
  · intro p hp
    rw [h p.1]
    exact lookupRec_of_mem_nodup m2 h2 p.1 p.2 hp

theorem dbCommit_allOk (db : SimpleDB) (disk : Disk)
    (h1 : (disk.logfiles db.version).isSome = true)
    (h2 : (disk.checkpoints db.version).isSome = true)
    (h3 : disk.versionFile.isSome = true) :
    dbCommit allOk db disk = .ok
      { records := db.records, version := db.version + 1,
        logVersion := db.version + 1, commitInProgress := false }
      { versionFile := some (db.version + 1), newVersionFile := none,
        checkpoints := fun n =>
          if n = db.version then none else
          if n = db.version + 1 then some (serializeRecords db.records) else
          disk.checkpoints n,
        logfiles := fun n =>
          if n = db.version then none else
          if n = db.version + 1 then some [] else disk.logfiles n } := by
  have hne : db.version ≠ db.version + 1 := by omega
  obtain ⟨lf, hlf⟩ := Option.isSome_iff_exists.mp h1
  obtain ⟨cf, hcf⟩ := Option.isSome_iff_exists.mp h2
  obtain ⟨vf, hvf⟩ := Option.isSome_iff_exists.mp h3
  simp only [dbCommit, allOk, hne, hlf, hcf, hvf, if_neg, if_false,
    Option.isNone_some, Bool.false_eq_true, or_self, if_true, ite_false,
    ite_true, Option.isSome_some, reduceCtorEq, ite_eq_right_iff]
  norm_num
  all_goals
    funext n
    by_cases e1 : n = db.version <;> by_cases e2 : n = db.version + 1 <;>
      simp [e1, e2, hne]

theorem runActions_records (acts : List DbAction) :
    ∀ (db : SimpleDB) (disk : Disk), db.commitInProgress = false →
      (runActions (db, disk) acts).1 =
        { db with records :=
            (acts.map DbAction.toLogOp).foldl applyLogOp db.records } := by
  induction acts with
  | nil => intro db disk h; rfl
  | cons a rest ih =>
      intro db disk h
      cases a with
      | putA k v =>
          have e1 : runActions (db, disk) (.putA k v :: rest) =
              runActions (dbPut true db disk k v).2 rest := rfl
          have e2 : (dbPut true db disk k v).2 =
              ({ db with records := insertRec k v db.records },
                appendToDisk db disk (.put k v)) := by
            simp [dbPut, h]
          rw [e1, e2, ih _ _ (by simp [h])]
          simp [DbAction.toLogOp, applyLogOp]
      | delA k =>
          have e1 : runActions (db, disk) (.delA k :: rest) =
              runActions (dbDelete true db disk k).2 rest := rfl
          have e2 : (dbDelete true db disk k).2 =
              ({ db with records := eraseRec k db.records },
                appendToDisk db disk (.del k)) := by
            simp [dbDelete, h]
          rw [e1, e2, ih _ _ (by simp [h])]
          simp [DbAction.toLogOp, applyLogOp]

theorem runActions_disk (acts : List DbAction) :
    ∀ (db : SimpleDB) (disk : Disk), db.commitInProgress = false →
      (disk.logfiles db.logVersion).isSome = true →
      (runActions (db, disk) acts).2 =
        appendedDisk disk db.logVersion (encodeOps (acts.map DbAction.toLogOp)) := by
  induction acts with
  | nil =>
      intro db disk h hl
      obtain ⟨l, hl⟩ := Option.isSome_iff_exists.mp hl
      have e0 : (runActions (db, disk) []).2 = disk := rfl
      rw [e0]
      ext n
      · rfl
      · rfl
      · rfl
      · by_cases e1 : n = db.logVersion <;> simp [appendedDisk, e1, hl, encodeOps]
  | cons a rest ih =>
      intro db disk h hl
      obtain ⟨l, hl⟩ := Option.isSome_iff_exists.mp hl
      cases a with
      | putA k v =>
          have e1 : runActions (db, disk) (.putA k v :: rest) =
              runActions (dbPut true db disk k v).2 rest := rfl
          have e2 : (dbPut true db disk k v).2 =
              ({ db with records := insertRec k v db.records },
                appendToDisk db disk (.put k v)) := by
            simp [dbPut, h]
          rw [e1, e2, ih _ _ (by simp [h]) (by simp [appendToDisk])]
          ext n
          · rfl
          · rfl
          · rfl
          · by_cases e3 : n = db.logVersion <;>
              simp [appendedDisk, e3, appendToDisk, hl, encodeOps, DbAction.toLogOp]
      | delA k =>
          have e1 : runActions (db, disk) (.delA k :: rest) =
              runActions (dbDelete true db disk k).2 rest := rfl
          have e2 : (dbDelete true db disk k).2 =
              ({ db with records := eraseRec k db.records },
                appendToDisk db disk (.del k)) := by
            simp [dbDelete, h]
          rw [e1, e2, ih _ _ (by simp [h]) (by simp [appendToDisk])]
          ext n
          · rfl
          · rfl
          · rfl
          · by_cases e3 : n = db.logVersion <;>
              simp [appendedDisk, e3, appendToDisk, hl, encodeOps, DbAction.toLogOp]


theorem commit_err_inv (io : CommitFlags) (db : SimpleDB) (disk : Disk)
    (e : DatabaseError) (db1 : SimpleDB) (disk1 : Disk)
    (h : dbCommit io db disk = .err e db1 disk1) :
    db1.version = db.version ∧ db1.records = db.records ∧
    db1.commitInProgress = true ∧ db1.logVersion = db.logVersion ∧
    disk1.checkpoints db.version = disk.checkpoints db.version ∧
    disk1.logfiles db.version = disk.logfiles db.version ∧
    disk1.versionFile = disk.versionFile := by
  have hne : ¬(db.version = db.version + 1) := by omega
  simp only [dbCommit] at h
  simp only [if_neg hne] at h
  by_cases c1 : io.createMarker = false
  · rw [if_pos c1] at h
    injection h with h1 h2 h3
    subst h2
    subst h3
    simp [hne]
  rw [if_neg c1] at h
  by_cases c2 : io.createCheckpoint = false
  · rw [if_pos c2] at h
    injection h with h1 h2 h3
    subst h2
    subst h3
    simp [hne]
  rw [if_neg c2] at h
  by_cases c3 : io.writeCheckpoint = false
  · rw [if_pos c3] at h
    injection h with h1 h2 h3
    subst h2
    subst h3
    simp [hne]
  rw [if_neg c3] at h
  by_cases c4 : io.createLog = false
  · rw [if_pos c4] at h
    injection h with h1 h2 h3
    subst h2
    subst h3
    simp [hne]
  rw [if_neg c4] at h
  by_cases c5 : io.openLog = false
  · rw [if_pos c5] at h
    injection h with h1 h2 h3
    subst h2
    subst h3
    simp [hne]
  rw [if_neg c5] at h
  by_cases c6 : io.removeOldLog = false ∨ (disk.logfiles db.version).isNone = true
  · rw [if_pos c6] at h
    simp at h
  rw [if_neg c6] at h
  by_cases c7 : io.removeOldCheckpoint = false ∨
      (disk.checkpoints db.version).isNone = true
  · rw [if_pos c7] at h
    simp at h
  rw [if_neg c7] at h
  by_cases c8 : io.removeVersionFile = false ∨ disk.versionFile.isNone = true
  · rw [if_pos c8] at h
    simp at h
  rw [if_neg c8] at h
  by_cases c9 : io.renameMarker = false ∨
      (some (db.version + 1) : Option Nat).isNone = true
  · rw [if_pos c9] at h
    simp at h
  rw [if_neg c9] at h
  simp at h

theorem commit_panic_inv (io : CommitFlags) (db : SimpleDB) (disk : Disk)
    (m : String) (dk : Disk)
    (h1 : (disk.logfiles db.version).isSome = true)
    (h2 : (disk.checkpoints db.version).isSome = true)
    (h3 : disk.versionFile.isSome = true)
    (h : dbCommit io db disk = .panicked m dk) :
    io.removeOldLog = false ∨ io.removeOldCheckpoint = false ∨
    io.removeVersionFile = false ∨ io.renameMarker = false := by
  have hne : ¬(db.version = db.version + 1) := by omega
  obtain ⟨lf, hlf⟩ := Option.isSome_iff_exists.mp h1
  obtain ⟨cf, hcf⟩ := Option.isSome_iff_exists.mp h2
  obtain ⟨vf, hvf⟩ := Option.isSome_iff_exists.mp h3
  simp only [dbCommit] at h
  simp only [if_neg hne, hlf, hcf, hvf, Option.isNone_some,
    Bool.false_eq_true, or_false] at h
  by_cases c1 : io.createMarker = false
  · rw [if_pos c1] at h
    simp at h
  rw [if_neg c1] at h
  by_cases c2 : io.createCheckpoint = false
  · rw [if_pos c2] at h
    simp at h
  rw [if_neg c2] at h
  by_cases c3 : io.writeCheckpoint = false
  · rw [if_pos c3] at h
    simp at h
  rw [if_neg c3] at h
  by_cases c4 : io.createLog = false
  · rw [if_pos c4] at h
    simp at h
  rw [if_neg c4] at h
  by_cases c5 : io.openLog = false
  · rw [if_pos c5] at h
    simp at h
  rw [if_neg c5] at h
  by_cases c6 : io.removeOldLog = false
  · exact Or.inl c6
  rw [if_neg c6] at h
  by_cases c7 : io.removeOldCheckpoint = false
  · exact Or.inr (Or.inl c7)
  rw [if_neg c7] at h
  by_cases c8 : io.removeVersionFile = false
  · exact Or.inr (Or.inr (Or.inl c8))
  rw [if_neg c8] at h
  by_cases c9 : io.renameMarker = false
  · exact Or.inr (Or.inr (Or.inr c9))
  rw [if_neg c9] at h
  simp at h

theorem commit_ok_inv (io : CommitFlags) (db : SimpleDB) (disk : Disk)
    (db1 : SimpleDB) (disk1 : Disk)
    (h : dbCommit io db disk = .ok db1 disk1) :
    db1.version = db.version + 1 ∧ db1.commitInProgress = false ∧
    db1.records = db.records ∧ db1.logVersion = db.version + 1 ∧
    disk1.checkpoints db.version = none ∧
    disk1.logfiles db.version = none ∧
    disk1.checkpoints (db.version + 1) = some (serializeRecords db.records) ∧
    disk1.logfiles (db.version + 1) = some [] ∧
    disk1.versionFile = some (db.version + 1) ∧
    disk1.newVersionFile = none := by
  have hne : ¬(db.version = db.version + 1) := by omega
  have hne2 : ¬(db.version + 1 = db.version) := by omega
  simp only [dbCommit] at h
  simp only [if_neg hne] at h
  by_cases c1 : io.createMarker = false
  · rw [if_pos c1] at h
    simp at h
  rw [if_neg c1] at h
  by_cases c2 : io.createCheckpoint = false
  · rw [if_pos c2] at h
    simp at h
  rw [if_neg c2] at h
  by_cases c3 : io.writeCheckpoint = false
  · rw [if_pos c3] at h
    simp at h
  rw [if_neg c3] at h
  by_cases c4 : io.createLog = false
  · rw [if_pos c4] at h
    simp at h
  rw [if_neg c4] at h
  by_cases c5 : io.openLog = false
  · rw [if_pos c5] at h
    simp at h
  rw [if_neg c5] at h
  by_cases c6 : io.removeOldLog = false ∨ (disk.logfiles db.version).isNone = true
  · rw [if_pos c6] at h
    simp at h
  rw [if_neg c6] at h
  by_cases c7 : io.removeOldCheckpoint = false ∨
      (disk.checkpoints db.version).isNone = true
  · rw [if_pos c7] at h
    simp at h
  rw [if_neg c7] at h
  by_cases c8 : io.removeVersionFile = false ∨ disk.versionFile.isNone = true
  · rw [if_pos c8] at h
    simp at h
  rw [if_neg c8] at h
  by_cases c9 : io.renameMarker = false ∨
      (some (db.version + 1) : Option Nat).isNone = true
  · rw [if_pos c9] at h
    simp at h
  rw [if_neg c9] at h
  injection h with h1 h2
  subst h1
  subst h2
  simp [hne, hne2]

theorem lookupRec_foldl_insert_nil (m : RecList)
    (h : (m.map Prod.fst).Nodup) (k : Bytes) :
    lookupRec k (m.foldl (fun a p => insertRec p.1 p.2 a) []) = lookupRec k m := by
  rw [lookupRec_foldl_insert m h [] k]
  cases lookupRec k m <;> rfl

/-- C1: for every well-formed store and (hence for the state reached by any
sequence of successful put/delete calls), a successful `commit()` followed
by a restart (`open` on the same directory) yields a record set equal to
the in-memory record set at commit time, advances `version()` by exactly
one, deletes `checkpoint.<old>` and `logfile.<old>`, and leaves
`checkpoint.<new>` and `logfile.<new>` present with the canonical marker
naming the new version. -/
theorem c1_commit_restart_equivalence (db : SimpleDB) (disk : Disk)
    (h : dbDiskWf db disk = true) : C1Post db disk := by
  simp only [dbDiskWf, Bool.and_eq_true] at h
  obtain ⟨⟨⟨hrw, hlf⟩, hcf⟩, hvf⟩ := h
  simp only [recordsWf, Bool.and_eq_true, decide_eq_true_eq] at hrw
  obtain ⟨hnd, hlen⟩ := hrw
  have hne2 : ¬(db.version + 1 = db.version) := by omega
  have hcommit := dbCommit_allOk db disk hlf hcf hvf
  have hser := readRecordsFromFile_serialize db.records hlen
  have hrr : readUntilEmpty ([] : Bytes) = .ok [] := rfl
  unfold C1Post commitThenReopen
  rw [hcommit]
  simp only [dbOpen, tryLoadFromExisting, loadAtVersion, if_neg hne2, hser,
    hrr, ite_true, eq_self_iff_true, List.foldl_nil]
  refine ⟨trivial, trivial, ?_, trivial, trivial, rfl, rfl, trivial, trivial⟩
  exact recEquiv_of_lookup_eq _ db.records
    (nodupKeys_foldl_insert db.records [] (by simp)) hnd
    (fun k => lookupRec_foldl_insert_nil db.records hnd k)

/-- C2 (amended): for any sequence of successful put/delete calls on a
freshly created store, restarting without commit reopens a store whose
record set equals the result of applying the sequence in order to the
empty map (`Put` inserts or overwrites, `Delete` removes) and whose
version is unchanged (0). For a store opened on a directory with
previously committed data the reopened record set instead starts from the
committed checkpoint, not from the empty map (see the counterexample). -/
theorem c2_restart_without_commit (acts : List DbAction)
    (h : actsWf acts = true) :
    (runActions (freshDb, freshDisk) acts).1.version = 0 ∧
    (dbOpen (some (runActions (freshDb, freshDisk) acts).2)).okDb =
      some { records := acts.foldl (fun m a => applyLogOp m a.toLogOp) [],
             version := 0, logVersion := 0, commitInProgress := false } := by
  have hfr : freshDb.commitInProgress = false := rfl
  have hl : (freshDisk.logfiles freshDb.logVersion).isSome = true := rfl
  have hops : opsWf (acts.map DbAction.toLogOp) = true := by
    simp only [opsWf, List.all_map]
    simpa [Function.comp, actsWf] using h
  have hre := readUntilEmpty_encodeOps (acts.map DbAction.toLogOp) hops
  have hrr : readRecordsFromFile ([] : Bytes) = .ok [] := rfl
  constructor
  · rw [runActions_records acts freshDb freshDisk hfr]
    rfl
  · rw [runActions_disk acts freshDb freshDisk hfr hl]
    simp only [dbOpen, tryLoadFromExisting, loadAtVersion, appendedDisk,
      freshDisk, freshDb, ite_true, eq_self_iff_true, Option.getD_some,
      List.nil_append, hrr, hre, List.foldl_nil, OpenRes.okDb]
    simp [List.foldl_map]

/-- C3: after a successful `put(key, value)` on a store with no commit in
progress, `get(key)` returns `Some(value)`, and continues to do so across
any further sequence of successful put/delete calls that never touches
`key`; `get` is a pure lookup in the in-memory record set (its model does
not even consume the `Disk`), and for a key absent from the record set it
returns `None`, not an error. -/
theorem c3_get_after_put (db : SimpleDB) (disk : Disk) (k v km : Bytes)
    (acts : List DbAction)
    (h1 : db.commitInProgress = false)
    (h2 : acts.all (fun a => decide (a.key ≠ k)) = true)
    (h3 : lookupRec km db.records = none) :
    (dbPut true db disk k v).1 = none ∧
    dbGet (dbPut true db disk k v).2.1 true k = some v ∧
    dbGet (runActions ((dbPut true db disk k v).2) acts).1 true k = some v ∧
    dbGet db true km = none := by
  have e2 : (dbPut true db disk k v).2 =
      ({ db with records := insertRec k v db.records },
        appendToDisk db disk (.put k v)) := by
    simp [dbPut, h1]
  have hkeys : ∀ op ∈ acts.map DbAction.toLogOp, opKey op ≠ k := by
    intro op hop
    obtain ⟨a, ha, rfl⟩ := List.mem_map.mp hop
    have ekey : opKey a.toLogOp = a.key := by cases a <;> rfl
    rw [ekey]
    simp only [List.all_eq_true, decide_eq_true_eq] at h2
    exact h2 a ha
  refine ⟨by simp [dbPut, h1], ?_, ?_, by simp [dbGet, h3]⟩
  · rw [e2]
    simp [dbGet, lookupRec_insert_self]
  · rw [e2, runActions_records acts _ _ (by simp [h1])]
    simp only [dbGet, if_pos trivial, ite_true]
    rw [lookupRec_foldl_applyOp_ne (acts.map DbAction.toLogOp) k hkeys
      (insertRec k v db.records), lookupRec_insert_self]

/-- C4: evaluation of recovery at the crash-after-step-4 disk state
`diskPending` (pending marker = 1, checkpoint.1 and empty logfile.1 fully
written, canonical marker still 0). Recovery does read the pending
version, delete the pending marker, and load version 1's checkpoint and
WAL — but it never rewrites the canonical marker, which still reads 0.
Consequently a durable, acknowledged `put [7] [8]` issued after that
recovery is lost by the next restart, which regresses to version 0. -/
theorem c4_pending_marker_recovery :
    c4FirstRecovery.map
        (fun p => (p.1.version, p.1.commitInProgress, lookupRec [1] p.1.records)) =
      some (1, false, some [2]) ∧
    c4FirstRecovery.map (fun p => (p.2.versionFile, p.2.newVersionFile)) =
      some (some 0, none) ∧
    c4SecondOpen.map (fun d => (d.version, lookupRec [7] d.records)) =
      some (0, none) := by
  decide

/-- C5 (amended): whenever the commit-in-progress flag is set, `put` and
`delete` are rejected with a `Lock` error rather than blocking and the
in-memory state is untouched — but only AFTER the durable WAL append has
already happened, so the operation IS durably appended to the old WAL
while the engine is mid-pivot. -/
theorem c5_lock_rejection_after_append (db : SimpleDB) (disk : Disk)
    (k v : Bytes) (h : db.commitInProgress = true) :
    dbPut true db disk k v =
      (some (DatabaseError.lock .write (some ("Commit in progress"))), db,
        appendToDisk db disk (.put k v)) ∧
    dbDelete true db disk k =
      (some (DatabaseError.lock .write (some ("Commit in progress"))), db,
        appendToDisk db disk (.del k)) ∧
    (appendToDisk db disk (.put k v)).logfiles db.logVersion =
      some ((disk.logfiles db.logVersion).getD [] ++ encodeOp (.put k v)) := by
  refine ⟨by simp [dbPut, h], by simp [dbDelete, h], by simp [appendToDisk]⟩

/-- C6: the durable WAL append happens before the in-memory mutation; when
the append fails, `put` and `delete` surface the wrapped `LogError` and
leave the engine state (in particular the record set) and the disk
completely untouched. -/
theorem c6_append_before_mutation (db : SimpleDB) (disk : Disk)
    (k v : Bytes) :
    dbPut false db disk k v = (some (DatabaseError.other .ioErr), db, disk) ∧
    dbDelete false db disk k = (some (DatabaseError.other .ioErr), db, disk) := by
  exact ⟨rfl, rfl⟩

/-- C7 (amended): under any IO outcome, `commit` on a well-formed store
either returns success with the new version fully pivoted, or returns an
error leaving the version, the old version's files and the canonical
marker untouched (with the previous record set intact and a retry of
`commit` succeeding, although the commit-in-progress flag is left set), or
— only when one of the four cleanup filesystem steps after the pivot
fails — panics via the `expect` instead of returning an error. -/
theorem c7_commit_outcomes (io : CommitFlags) (db : SimpleDB) (disk : Disk)
    (h : dbDiskWf db disk = true) : C7Post io db disk := by
  simp only [dbDiskWf, Bool.and_eq_true] at h
  obtain ⟨⟨⟨hrw, hlf⟩, hcf⟩, hvf⟩ := h
  unfold C7Post
  cases hr : dbCommit io db disk with
  | ok db1 disk1 =>
      obtain ⟨e1, e2, e3, e4, e5, e6, e7, e8, e9, e10⟩ :=
        commit_ok_inv io db disk db1 disk1 hr
      refine ⟨e1, e2, e5, e6, ?_, ?_, ?_⟩
      · rw [e1, e7]
        rfl
      · rw [e1, e8]
        rfl
      · rw [e1]
        exact e9
  | err e db1 disk1 =>
      obtain ⟨e1, e2, e3, e4, e5, e6, e7⟩ :=
        commit_err_inv io db disk e db1 disk1 hr
      refine ⟨e1, e2, e3, e5, e6, e7, ?_⟩
      rw [dbCommit_allOk db1 disk1 (by rw [e1, e6]; exact hlf)
        (by rw [e1, e5]; exact hcf) (by rw [e7]; exact hvf)]
      rfl
  | panicked m dk =>
      exact commit_panic_inv io db disk m dk hlf hcf hvf hr

/-- C8 (amended): an unrecognized tag byte makes the single-operation
decoder fail with `InvalidOperation`, an error distinct from the
`EndReached` signal of a clean end-of-log — but the replay loop
(`read_until_empty`) treats EVERY decode error as end-of-log, so replay
of a WAL damaged by a bad tag terminates cleanly with the operations
decoded before the damage, instead of aborting recovery. -/
theorem c8_invalid_tag_terminates_cleanly (ops : List LogOperation) (t : Nat)
    (rest : Bytes) (hwf : opsWf ops = true) (h1 : t ≠ 112) (h2 : t ≠ 100) :
    readOperationFromLog (encodeChar t ++ rest) = .err (.invalidOperation t) ∧
    (LogError.invalidOperation t ≠ LogError.endReached) ∧
    readUntilEmpty (encodeOps ops ++ (encodeChar t ++ rest)) = .ok ops := by
  exact ⟨readOperationFromLog_badTag t rest h1 h2, by simp,
    readUntilEmpty_encodeOps_badTail ops t rest hwf h1 h2⟩

/-- C9: evaluation of WAL decoding at a truncated payload: a `'p'` entry
declaring key length 5 followed by only 2 bytes makes
`read_instruction_from_log` PANIC (the `panic!` in `log.rs`), the panic
propagates through replay, and `open` on a store with such a WAL panics
rather than returning an error value; by contrast the checkpoint decoder
(`read_records_from_file`) reports the same truncation as an error value
(`NotFound`, from the propagated IO error). -/
theorem c9_truncated_payload_panics :
    readInstrFromLog (u64be 5 ++ [1, 2]) =
      .panicked ("Unable to read instruction from log") ∧
    readUntilEmpty (encodeChar 112 ++ (u64be 5 ++ [1, 2])) =
      .panicked ("Unable to read instruction from log") ∧
    (dbOpen (some diskTrunc)).isPanic = true ∧
    readRecordsFromFile (u64be 5 ++ [1, 2]) = .err DatabaseError.notFound := by
  decide

/-- C10: `get` never returns an error and never panics — it is a total
function into `Option`; when the read-lock acquisition fails it returns
`None`, which is indistinguishable at the interface from the key being
absent (the same `None` that a successful lookup of an erased key
returns). -/
theorem c10_get_total (db : SimpleDB) (k : Bytes) :
    dbGet db false k = none ∧
    dbGet { db with records := eraseRec k db.records } true k = none := by
  refine ⟨rfl, ?_⟩
  simp [dbGet, lookupRec_erase_self]

/-- Counterexample to C2 as stated: an opened store (a restart of a store
holding one committed record) followed by the EMPTY sequence of put/delete
calls and a restart without commit reopens with record set `{[1] ↦ [2]}`
at version 1 — not the empty map that applying the empty sequence to an
empty map yields. -/
theorem c2_counterexample :
    c2Chain.map (fun d => (lookupRec [1] d.records, d.version)) =
      some (some [2], 1) ∧
    lookupRec [1]
        (([] : List DbAction).foldl (fun m a => applyLogOp m a.toLogOp) []) =
      none := by
  decide

/-- Counterexample to C5 as stated: the engine state left by a commit
whose pending-marker write failed has the commit-in-progress flag set
(reachable: first conjunct); a `put` against it is rejected with the
`Lock` error and mutates no in-memory state, yet the operation HAS been
durably appended to the old WAL (`logfile.0`), contradicting the "no
operation is durably appended to the old WAL while mid-pivot" part. -/
theorem c5_counterexample :
    (dbCommit ioNoMarker freshDb freshDisk).errDb = some dbMidPivot ∧
    (dbPut true dbMidPivot freshDisk [1] [2]).1 =
      some (DatabaseError.lock .write (some ("Commit in progress"))) ∧
    (dbPut true dbMidPivot freshDisk [1] [2]).2.1 = dbMidPivot ∧
    (dbPut true dbMidPivot freshDisk [1] [2]).2.2.logfiles 0 =
      some (encodeOp (.put [1] [2])) := by
  decide

/-- Counterexample to C7 as stated: on a fresh store, a commit whose first
cleanup `remove_file` fails neither returns success nor returns an error —
it panics (the `expect` in `commit`), so "commit either returns success or
returns an error" is false. -/
theorem c7_counterexample :
    (dbCommit ioNoCleanup freshDb freshDisk).isPanic = true ∧
    (dbCommit ioNoCleanup freshDb freshDisk).isOk = false ∧
    (dbCommit ioNoCleanup freshDb freshDisk).isErr = false := by
  decide

/-- Counterexample to C8 as stated: a WAL consisting of one entry with
unrecognized tag byte 120 makes the single-operation decoder return the
distinct `InvalidOperation` error, but replay terminates CLEANLY with the
empty operation list and `open` on a store with that WAL succeeds — it
does not abort. -/
theorem c8_counterexample :
    readOperationFromLog (encodeChar 120) = .err (.invalidOperation 120) ∧
    readUntilEmpty (encodeChar 120) = .ok [] ∧
    (dbOpen (some diskBadTag)).isOk = true := by
  decide

/-- Witness for C1 at a concrete one-record store. -/
theorem c1_witness : dbDiskWf wDb wDisk = true ∧ C1Post wDb wDisk :=
  ⟨by decide, c1_commit_restart_equivalence wDb wDisk (by decide)⟩

/-- Witness for C2 at a concrete two-action sequence. -/
theorem c2_witness :
    actsWf [DbAction.putA [1] [2], DbAction.delA [3]] = true ∧
    ((runActions (freshDb, freshDisk)
        [DbAction.putA [1] [2], DbAction.delA [3]]).1.version = 0 ∧
      (dbOpen (some (runActions (freshDb, freshDisk)
          [DbAction.putA [1] [2], DbAction.delA [3]]).2)).okDb =
        some { records := [([1], [2])], version := 0, logVersion := 0, commitInProgress := false }) :=
  ⟨by decide, c2_restart_without_commit _ (by decide)⟩

/-- Witness for C3 at a concrete store, key and action sequence. -/
theorem c3_witness :
    wDb.commitInProgress = false ∧
    ([DbAction.putA [3] [4]].all (fun a => decide (a.key ≠ [5])) = true) ∧
    lookupRec [9] wDb.records = none ∧
    ((dbPut true wDb wDisk [5] [6]).1 = none ∧
      dbGet (dbPut true wDb wDisk [5] [6]).2.1 true [5] = some [6] ∧
      dbGet (runActions ((dbPut true wDb wDisk [5] [6]).2)
        [DbAction.putA [3] [4]]).1 true [5] = some [6] ∧
      dbGet wDb true [9] = none) :=
  ⟨rfl, by decide, by decide,
    c3_get_after_put wDb wDisk [5] [6] [9] [DbAction.putA [3] [4]] rfl
      (by decide) (by decide)⟩

/-- Witness for C5 at a concrete mid-pivot state. -/
theorem c5_witness :
    dbMidPivot.commitInProgress = true ∧
    (dbPut true dbMidPivot freshDisk [3] [4] =
      (some (DatabaseError.lock .write (some ("Commit in progress"))),
        dbMidPivot, appendToDisk dbMidPivot freshDisk (.put [3] [4])) ∧
     dbDelete true dbMidPivot freshDisk [3] =
      (some (DatabaseError.lock .write (some ("Commit in progress"))),
        dbMidPivot, appendToDisk dbMidPivot freshDisk (.del [3])) ∧
     (appendToDisk dbMidPivot freshDisk
        (.put [3] [4])).logfiles dbMidPivot.logVersion =
      some ((freshDisk.logfiles dbMidPivot.logVersion).getD [] ++
        encodeOp (.put [3] [4]))) :=
  ⟨rfl, c5_lock_rejection_after_append dbMidPivot freshDisk [3] [4] rfl⟩

/-- Witness for C7 at a concrete store and a concrete failing IO oracle. -/
theorem c7_witness :
    dbDiskWf wDb wDisk = true ∧
    C7Post { allOk with writeCheckpoint := false } wDb wDisk :=
  ⟨by decide, c7_commit_outcomes { allOk with writeCheckpoint := false }
    wDb wDisk (by decide)⟩

/-- Witness for C8 at a concrete damaged WAL (tag byte 99). -/
theorem c8_witness :
    opsWf [LogOperation.del [1]] = true ∧ (99 : Nat) ≠ 112 ∧
    (99 : Nat) ≠ 100 ∧
    (readOperationFromLog (encodeChar 99 ++ [0]) =
        .err (.invalidOperation 99) ∧
      (LogError.invalidOperation 99 ≠ LogError.endReached) ∧
      readUntilEmpty (encodeOps [LogOperation.del [1]] ++
        (encodeChar 99 ++ [0])) = .ok [LogOperation.del [1]]) :=
  ⟨by decide, by decide, by decide,
    c8_invalid_tag_terminates_cleanly [LogOperation.del [1]] 99 [0]
      (by decide) (by decide) (by decide)⟩
